import Mathlib

/-!
Verification of the user-management REST service and its browser client
(src/src/api.js and src/public/api-client.js) against the specification.

The embedding is shallow: request bodies are records of optional string
fields (JSON bodies whose fields are strings or absent), the in-memory
user collection is a Lean list, JavaScript number coercions that the
handlers rely on (parseInt, Array.slice, truthiness) are embedded
explicitly, and timestamps are passed in as parameters (the code obtains
them from Date).
-/

namespace MiniAgents

/-- A stored user record (src/src/api.js, the `users` array).  The two seed
records carry no createdAt, so the field is optional; updatedAt is absent
until the first update. -/
structure User where
  id : Nat
  name : String
  email : String
  role : String
  createdAt : Option String := none
  updatedAt : Option String := none
deriving Repr, DecidableEq

/-- The module-level mutable state of src/src/api.js: the `users` array and
the `nextId` counter. -/
structure Store where
  users : List User
  nextId : Nat
deriving Repr, DecidableEq

/-- Initial state (src/src/api.js lines 29-33). -/
def initialStore : Store :=
  { users :=
      [ { id := 1, name := "Admin User", email := "admin@example.com", role := "admin" },
        { id := 2, name := "Test User", email := "test@example.com", role := "user" } ],
    nextId := 3 }

/-- JavaScript truthiness of a possibly-absent string: undefined and the
empty string are falsy, every other string is truthy. -/
def jsTruthy : Option String → Bool
  | none => false
  | some s => s != ""

/-- Value of a digit character under the given radix (10 or 16), if any. -/
def digitVal (base : Nat) (c : Char) : Option Nat :=
  if '0' ≤ c ∧ c ≤ '9' ∧ c.toNat - '0'.toNat < base then some (c.toNat - '0'.toNat)
  else if base = 16 ∧ 'a' ≤ c ∧ c ≤ 'f' then some (c.toNat - 'a'.toNat + 10)
  else if base = 16 ∧ 'A' ≤ c ∧ c ≤ 'F' then some (c.toNat - 'A'.toNat + 10)
  else none

/-- JavaScript parseInt on a string with no explicit radix: skip leading
whitespace, read an optional sign, detect a 0x/0X hex marker, then read the
longest prefix of digits; the result is NaN (here: none) when that prefix
is empty, and otherwise the signed value of the prefix, ignoring any
trailing garbage (parseInt("12abc") is 12). -/
def jsParseInt (s : String) : Option Int :=
  let cs := s.toList.dropWhile (fun c => c.isWhitespace)
  let sgn : Int := match cs with
    | '-' :: _ => -1
    | _ => 1
  let cs1 := match cs with
    | '-' :: rest => rest
    | '+' :: rest => rest
    | _ => cs
  let base : Nat := match cs1 with
    | '0' :: 'x' :: _ => 16
    | '0' :: 'X' :: _ => 16
    | _ => 10
  let cs2 := match cs1 with
    | '0' :: 'x' :: rest => rest
    | '0' :: 'X' :: rest => rest
    | _ => cs1
  let ds := (cs2.takeWhile (fun c => (digitVal base c).isSome)).filterMap (digitVal base)
  if ds.isEmpty then none
  else some (sgn * (ds.foldl (fun a d => a * base + d) 0 : Nat))

/-- JavaScript Array.prototype.slice(0, e) where e went through ToInteger:
NaN (none) becomes 0 and yields the empty array; a negative end counts from
the end of the array; otherwise the first e elements are taken. -/
def jsSliceZero (l : List α) (e : Option Int) : List α :=
  match e with
  | none => []
  | some e => if e < 0 then l.take (l.length - (-e).toNat) else l.take e.toNat

/-- Character class `[^\s@]` of the client email regex: neither whitespace
nor an at-sign. -/
def isEmailChar (c : Char) : Bool := !c.isWhitespace && c != '@'

/-- Client-side email test (src/public/api-client.js line 154): the regex
anchored as start, one or more non-whitespace non-at characters, an
at-sign, one or more such characters, a dot, one or more such characters,
end.  Because the repeated class excludes the at-sign, a match forces the
string to split at its unique at-sign into a nonempty local part and a
remainder that consists of non-whitespace non-at characters and contains a
dot at a position that is neither its first nor its last character (the
class includes the dot itself, so the parts around the matched dot may
contain further dots).  That characterisation is what is computed here. -/
def clientEmailOk (s : String) : Bool :=
  let cs := s.toList
  let lo := cs.takeWhile (fun c => c != '@')
  match cs.dropWhile (fun c => c != '@') with
  | '@' :: dom =>
      !lo.isEmpty && lo.all isEmailChar && dom.all isEmailChar &&
        ((dom.drop 1).dropLast.contains '.')
  | _ => false

/-- Position-indexed form of "the part after the at-sign decomposes as
domain.tld with nonempty domain and nonempty tld": some index j carries a
dot and has at least one character before it and at least one after it. -/
def hasDotSplit (dom : List Char) : Bool :=
  (List.range dom.length).any
    (fun j => dom.getD j ' ' == '.' && decide (1 ≤ j) && decide (j + 1 < dom.length))

/-- Modelled from the spec: the server-side email rule is validator.js
isEmail, an external library whose source is not part of this repository;
section 4.2 of the spec describes the rule as "must match a standard
local@domain.tld syntax pattern".  Rendered literally: no whitespace
anywhere, exactly one at-sign, a nonempty local part before it, and after
it a decomposition domain.tld with nonempty domain and nonempty tld. -/
def specEmailOk (s : String) : Bool :=
  let cs := s.toList
  cs.all (fun c => !c.isWhitespace) && (cs.count '@' == 1) &&
    !(cs.takeWhile (fun c => c != '@')).isEmpty &&
    hasDotSplit ((cs.dropWhile (fun c => c != '@')).drop 1)

/-- JavaScript String.prototype.trim: strip leading and trailing
whitespace. -/
def jsTrim (s : String) : String :=
  String.mk (((s.data.dropWhile (fun c => c.isWhitespace)).reverse.dropWhile
    (fun c => c.isWhitespace)).reverse)

/-- Name rule shared by both sides: trimmed length between 2 and 50. -/
def nameLenOk (n : String) : Bool := 2 ≤ (jsTrim n).length && (jsTrim n).length ≤ 50

/-- Role rule shared by both sides: exactly "user" or "admin". -/
def roleOk (r : String) : Bool := r == "user" || r == "admin"

/-- A request body for create/update: each field is a string or absent. -/
structure Body where
  name : Option String := none
  email : Option String := none
  role : Option String := none
deriving Repr, DecidableEq

/-- A single structured field violation, as produced by the client check
and as one entry of the server details array. -/
structure Violation where
  field : String
  message : String
deriving Repr, DecidableEq

/-- Client-side validation (src/public/api-client.js validateUserData):
sequential checks, first violation returned, none when all pass.  The
embedding covers bodies whose fields are strings or absent, so the
typeof-string test of the source is always passed. -/
def validateUserData (b : Body) (isPartial : Bool) : Option Violation :=
  if !isPartial && !(jsTruthy b.name) then
    some { field := "name", message := "Name is required" }
  else if (match b.name with | some n => !(nameLenOk n) | none => false) then
    some { field := "name", message := "Name must be between 2 and 50 characters" }
  else if !isPartial && !(jsTruthy b.email) then
    some { field := "email", message := "Email is required" }
  else if (match b.email with | some e => !(clientEmailOk e) | none => false) then
    some { field := "email", message := "Please enter a valid email address" }
  else if (match b.role with | some r => !(roleOk r) | none => false) then
    some { field := "role", message := "Role must be either \"user\" or \"admin\"" }
  else none

/-- Server-side validator chain of POST /users (src/src/api.js lines
127-140): express-validator runs every chain and validationResult
collects one error per failed chain, in chain order.  A missing field is
stringified to the empty string by the framework, so a missing name or
email fails its (non-optional) check; role is optional.  The email check
itself is the spec-modelled specEmailOk. -/
def postValidationDetails (b : Body) : List Violation :=
  (match b.name with
   | some n =>
       if nameLenOk n then [] else
         [{ field := "name", message := "Name must be between 2 and 50 characters" }]
   | none => [{ field := "name", message := "Name must be between 2 and 50 characters" }]) ++
  (match b.email with
   | some e =>
       if specEmailOk e then [] else
         [{ field := "email", message := "Valid email is required" }]
   | none => [{ field := "email", message := "Valid email is required" }]) ++
  (match b.role with
   | some r =>
       if roleOk r then [] else
         [{ field := "role", message := "Role must be either user or admin" }]
   | none => [])

/-- Server-side validator chain of PUT /users (src/src/api.js lines
178-193): as for POST but with every field optional. -/
def putValidationDetails (b : Body) : List Violation :=
  (match b.name with
   | some n =>
       if nameLenOk n then [] else
         [{ field := "name", message := "Name must be between 2 and 50 characters" }]
   | none => []) ++
  (match b.email with
   | some e =>
       if specEmailOk e then [] else
         [{ field := "email", message := "Valid email is required" }]
   | none => []) ++
  (match b.role with
   | some r =>
       if roleOk r then [] else
         [{ field := "role", message := "Role must be either user or admin" }]
   | none => [])

/-- The uniform JSON envelope returned by every endpoint, together with the
HTTP status code it is sent with. -/
structure Response where
  status : Nat
  success : Bool
  user : Option User := none
  userList : Option (List User) := none
  error : Option String := none
  message : Option String := none
  details : Option (List Violation) := none
  total : Option Nat := none
  returned : Option Nat := none
deriving Repr, DecidableEq

/-- The role filter of GET /users: applied exactly when the role query
value is truthy (a present, nonempty string). -/
def roleFiltered (s : Store) (role : Option String) : List User :=
  match role with
  | some r => if r != "" then s.users.filter (fun u => u.role == r) else s.users
  | none => s.users

/-- The limit argument GET /users feeds into slice: the destructuring
default 50 when the query parameter is absent, the parseInt of the query
string otherwise (none is NaN). -/
def limParsed : Option String → Option Int
  | none => some 50
  | some l => jsParseInt l

/-- GET /users (src/src/api.js lines 66-90): optional role filter applied
when the role query value is truthy, then slice(0, parseInt(limit)) with
limit defaulting to the number 50 when the query parameter is absent. -/
def getUsersHandler (s : Store) (role : Option String) (limit : Option String) : Response :=
  let filteredUsers := roleFiltered s role
  let limitedUsers := jsSliceZero filteredUsers (limParsed limit)
  { status := 200, success := true, userList := some limitedUsers,
    total := some filteredUsers.length, returned := some limitedUsers.length }

/-- GET /users/:id (src/src/api.js lines 93-124). -/
def getUserHandler (s : Store) (idStr : String) : Response :=
  match jsParseInt idStr with
  | none => { status := 400, success := false, error := some "Invalid user ID format" }
  | some uid =>
    match s.users.find? (fun u => (u.id : Int) == uid) with
    | none => { status := 404, success := false, error := some "User not found" }
    | some u => { status := 200, success := true, user := some u }

/-- POST /users (src/src/api.js lines 127-175).  The body is taken after
the validator chain sanitizers have run (name trimmed, email normalized by
normalizeEmail), which is the value the handler itself observes; `now` is
the ISO timestamp the handler would read from Date.  When validation
passed, name and email are present (their non-optional checks reject an
absent field), so the defaults fed to getD are never the observed value;
the destructuring default makes role "user" when absent. -/
def postUsersHandler (s : Store) (b : Body) (now : String) : Response × Store :=
  if (postValidationDetails b).isEmpty then
    let name := b.name.getD ""
    let email := b.email.getD ""
    let role := b.role.getD "user"
    match s.users.find? (fun u => u.email == email) with
    | some _ =>
      ({ status := 409, success := false, error := some "Email already exists" }, s)
    | none =>
      let newUser : User :=
        { id := s.nextId, name := name, email := email, role := role, createdAt := some now }
      ({ status := 201, success := true, message := some "User created successfully",
         user := some newUser },
       { users := s.users ++ [newUser], nextId := s.nextId + 1 })
  else
    ({ status := 400, success := false, error := some "Validation failed",
       details := some (postValidationDetails b) }, s)

/-- The duplicate-email test of the PUT handler (src/src/api.js lines
216-224): runs only when the supplied email is truthy and differs from the
target record, and then searches the whole collection. -/
def putEmailConflict (s : Store) (target : User) (b : Body) : Bool :=
  match b.email with
  | none => false
  | some e =>
      (e != "") && (e != target.email) && (s.users.find? (fun u => u.email == e)).isSome

/-- PUT /users/:id (src/src/api.js lines 178-244): validator chain first
(all fields optional), then id parse, then findIndex, then the
duplicate-email test, then in-place merge of the supplied fields and an
updatedAt stamp. -/
def putUsersHandler (s : Store) (idStr : String) (b : Body) (now : String) : Response × Store :=
  if (putValidationDetails b).isEmpty then
    match jsParseInt idStr with
    | none =>
      ({ status := 400, success := false, error := some "Invalid user ID format" }, s)
    | some uid =>
      if hix : s.users.findIdx (fun u => (u.id : Int) == uid) < s.users.length then
        let target := s.users[s.users.findIdx (fun u => (u.id : Int) == uid)]
        if putEmailConflict s target b then
          ({ status := 409, success := false, error := some "Email already exists" }, s)
        else
          let updated : User :=
            { target with
              name := b.name.getD target.name,
              email := b.email.getD target.email,
              role := b.role.getD target.role,
              updatedAt := some now }
          ({ status := 200, success := true, message := some "User updated successfully",
             user := some updated },
           { s with
             users := s.users.set (s.users.findIdx (fun u => (u.id : Int) == uid)) updated })
      else
        ({ status := 404, success := false, error := some "User not found" }, s)
  else
    ({ status := 400, success := false, error := some "Validation failed",
       details := some (putValidationDetails b) }, s)

/-- DELETE /users/:id (src/src/api.js lines 247-281). -/
def deleteUserHandler (s : Store) (idStr : String) : Response × Store :=
  match jsParseInt idStr with
  | none =>
    ({ status := 400, success := false, error := some "Invalid user ID format" }, s)
  | some uid =>
    if hix : s.users.findIdx (fun u => (u.id : Int) == uid) < s.users.length then
      ({ status := 200, success := true, message := some "User deleted successfully",
         user := some s.users[s.users.findIdx (fun u => (u.id : Int) == uid)] },
       { s with users := s.users.eraseIdx (s.users.findIdx (fun u => (u.id : Int) == uid)) })
    else
      ({ status := 404, success := false, error := some "User not found" }, s)

/-- One stored cache entry: the value together with its write timestamp
(src/public/api-client.js ApiCache.set). -/
structure CacheEntry (α : Type) where
  value : α
  timestamp : Nat
deriving Repr, DecidableEq

/-- The response cache (src/public/api-client.js ApiCache): a key-value map
with per-entry write timestamps and a fixed ttl (default 30000 ms).  The
JavaScript Map is embedded as an association list with unique keys; times
are naturals (milliseconds). -/
structure ApiCache (κ α : Type) where
  entries : List (κ × CacheEntry α)
  ttl : Nat := 30000
deriving Repr, DecidableEq

/-- ApiCache.set: store the value under the key with the current time as
its write timestamp, replacing any previous entry for the key. -/
def ApiCache.set [BEq κ] (c : ApiCache κ α) (k : κ) (v : α) (now : Nat) : ApiCache κ α :=
  { c with entries := c.entries.filter (fun e => e.1 != k) ++ [(k, ⟨v, now⟩)] }

/-- ApiCache.get: a missing key is a miss; a present entry is evicted and
reported as a miss when now - timestamp > ttl, and returned otherwise.
The returned pair is the result together with the cache afterwards. -/
def ApiCache.get [BEq κ] (c : ApiCache κ α) (k : κ) (now : Nat) : Option α × ApiCache κ α :=
  match c.entries.find? (fun e => e.1 == k) with
  | none => (none, c)
  | some e =>
    if now - e.2.timestamp > c.ttl then
      (none, { c with entries := c.entries.filter (fun x => x.1 != k) })
    else
      (some e.2.value, c)

/-- ApiCache.clear: evict everything. -/
def ApiCache.clearAll (c : ApiCache κ α) : ApiCache κ α := { c with entries := [] }

/-- The error value carried by a rejected client call (src/public/api-client.js
ApiError): message, status (0 for transport failures) and optional details. -/
structure ApiError where
  message : String
  status : Nat
  details : Option (List Violation) := none
deriving Repr, DecidableEq

/-- The filter argument of ApiClient.getUsers.  The cache key is the JSON
serialization of this object; since that serialization is injective on
this shape, the filters value itself serves as the key. -/
structure Filters where
  role : Option String := none
  limit : Option String := none
deriving Repr, DecidableEq

/-- fetch response.ok: the status is in the 200-299 range. -/
def respOk (r : Response) : Bool := 200 ≤ r.status && r.status < 300

/-- The combined state the cached client operates on: the server store it
talks to over the network, and its response cache. -/
structure ClientState where
  store : Store
  cache : ApiCache Filters Response
deriving Repr, DecidableEq

/-- The network part of ApiClient.getUsers: query parameters are appended
only when the corresponding filter field is truthy, so a falsy field
reaches the server as an absent parameter. -/
def netGetUsers (st : ClientState) (f : Filters) : Response :=
  getUsersHandler st.store
    (if jsTruthy f.role then f.role else none)
    (if jsTruthy f.limit then f.limit else none)

/-- CachedApiClient.getUsers (src/public/api-client.js lines 289-300): a
fresh cache hit is returned directly; otherwise the network result is
fetched and stored under the filter key.  The Bool records whether a
network request was issued.  The list endpoint always answers 200, so the
fetch never rejects here. -/
def cachedGetUsers (st : ClientState) (f : Filters) (now : Nat) :
    Response × ClientState × Bool :=
  match (st.cache.get f now : Option Response × ApiCache Filters Response) with
  | (some v, c) => (v, { st with cache := c }, false)
  | (none, c) =>
    let resp := netGetUsers st f
    (resp, { st with cache := c.set f resp now }, true)

/-- CachedApiClient.createUser: client-side validation fails fast with a
400 ApiError and no network traffic; otherwise the POST is issued, a
non-ok envelope is rethrown as an ApiError, and only a successful result
clears the cache.  `nowIso` is the timestamp string the server stamps. -/
def cachedCreateUser (st : ClientState) (b : Body) (nowIso : String) :
    Except ApiError Response × ClientState × Bool :=
  match validateUserData b false with
  | some v => (Except.error { message := "Validation error", status := 400, details := some [v] }, st, false)
  | none =>
    let rs := postUsersHandler st.store b nowIso
    if respOk rs.1 then
      (Except.ok rs.1, { store := rs.2, cache := st.cache.clearAll }, true)
    else
      (Except.error { message := rs.1.error.getD "Request failed", status := rs.1.status,
                      details := rs.1.details },
       { st with store := rs.2 }, true)

/-- CachedApiClient.updateUser: the id precheck (falsy id or NaN parse)
rejects without network; then client-side partial validation; then the PUT
is issued and only a successful result clears the cache. -/
def cachedUpdateUser (st : ClientState) (idStr : String) (b : Body) (nowIso : String) :
    Except ApiError Response × ClientState × Bool :=
  if idStr == "" || (jsParseInt idStr).isNone then
    (Except.error { message := "Invalid user ID", status := 400 }, st, false)
  else
    match validateUserData b true with
    | some v => (Except.error { message := "Validation error", status := 400, details := some [v] }, st, false)
    | none =>
      let rs := putUsersHandler st.store idStr b nowIso
      if respOk rs.1 then
        (Except.ok rs.1, { store := rs.2, cache := st.cache.clearAll }, true)
      else
        (Except.error { message := rs.1.error.getD "Request failed", status := rs.1.status,
                        details := rs.1.details },
         { st with store := rs.2 }, true)

/-- CachedApiClient.deleteUser: id precheck, then the DELETE is issued and
only a successful result clears the cache. -/
def cachedDeleteUser (st : ClientState) (idStr : String) :
    Except ApiError Response × ClientState × Bool :=
  if idStr == "" || (jsParseInt idStr).isNone then
    (Except.error { message := "Invalid user ID", status := 400 }, st, false)
  else
    let rs := deleteUserHandler st.store idStr
    if respOk rs.1 then
      (Except.ok rs.1, { store := rs.2, cache := st.cache.clearAll }, true)
    else
      (Except.error { message := rs.1.error.getD "Request failed", status := rs.1.status,
                      details := rs.1.details },
       { st with store := rs.2 }, true)

/-- One mutating request of a process lifetime (read-only requests do not
touch the store). -/
inductive Op where
  | create (b : Body) (now : String)
  | update (idStr : String) (b : Body) (now : String)
  | remove (idStr : String)
deriving Repr

/-- One step of a request trace: the store evolves by the handler, and the
ghost list of all ids ever assigned grows by the id a successful create
hands out (the id of the record in its 201 envelope, which is the nextId
of the store the request arrived at). -/
def stepOp (p : Store × List Nat) : Op → Store × List Nat
  | Op.create b now =>
    let rs := postUsersHandler p.1 b now
    (rs.2, if rs.1.status = 201 then p.2 ++ [p.1.nextId] else p.2)
  | Op.update idStr b now => ((putUsersHandler p.1 idStr b now).2, p.2)
  | Op.remove idStr => ((deleteUserHandler p.1 idStr).2, p.2)

/-- Run a trace of requests from process start: the seeded store, with the
seed ids 1 and 2 recorded as already assigned. -/
def runTrace (ops : List Op) : Store × List Nat :=
  ops.foldl stepOp (initialStore, [1, 2])

/-- The ordered list of field violations the client rules detect, in the
priority order of the sequential checks of validateUserData: the name
checks, then the email checks, then the role check. -/
def clientViolationList (b : Body) (isPartial : Bool) : List Violation :=
  (if !isPartial && !(jsTruthy b.name) then
     [{ field := "name", message := "Name is required" }]
   else match b.name with
     | some n =>
         if nameLenOk n then [] else
           [{ field := "name", message := "Name must be between 2 and 50 characters" }]
     | none => []) ++
  (if !isPartial && !(jsTruthy b.email) then
     [{ field := "email", message := "Email is required" }]
   else match b.email with
     | some e =>
         if clientEmailOk e then [] else
           [{ field := "email", message := "Please enter a valid email address" }]
     | none => []) ++
  (match b.role with
   | some r =>
       if roleOk r then [] else
         [{ field := "role", message := "Role must be either \"user\" or \"admin\"" }]
   | none => [])

/-- The cache entry a client state holds for a filter key, if any. -/
def cacheLookup (st : ClientState) (f : Filters) : Option (CacheEntry Response) :=
  (st.cache.entries.find? (fun e => e.1 == f)).map (fun e => e.2)

/-- The slice of GET /users is always an initial segment of the filtered
list: empty for a NaN end, counted from the end for a negative end, the
first e elements otherwise. -/
theorem jsSliceZero_eq_take (l : List α) (e : Option Int) :
    ∃ k, jsSliceZero l e = l.take k := by
  cases e with
  | none => exact ⟨0, by simp [jsSliceZero]⟩
  | some e =>
    by_cases he : e < 0
    · exact ⟨l.length - (-e).toNat, by simp [jsSliceZero, he]⟩
    · exact ⟨e.toNat, by simp [jsSliceZero, he]⟩

/-- Every element the slice returns comes from the sliced list. -/
theorem jsSliceZero_subset (l : List α) (e : Option Int) :
    ∀ u ∈ jsSliceZero l e, u ∈ l := by
  obtain ⟨k, hk⟩ := jsSliceZero_eq_take l e
  rw [hk]
  exact fun u hu => List.take_subset k l hu

/-- C10: a GET /users request whose limit query value parses to NaN (for
example limit=abc) still answers 200 with success true, but the data array
is empty and returned is 0, while total is still the count after the role
filter. -/
theorem c10_nan_limit (s : Store) (role : Option String) (limitStr : String)
    (h : jsParseInt limitStr = none) :
    (getUsersHandler s role (some limitStr)).status = 200 ∧
    (getUsersHandler s role (some limitStr)).success = true ∧
    (getUsersHandler s role (some limitStr)).userList = some [] ∧
    (getUsersHandler s role (some limitStr)).returned = some 0 ∧
    (getUsersHandler s role (some limitStr)).total = some (roleFiltered s role).length := by
  simp [getUsersHandler, limParsed, h, jsSliceZero]

/-- C10 witness: limit=abc on the seeded store. -/
theorem c10_nan_limit_witness :
    jsParseInt "abc" = none ∧
    (getUsersHandler initialStore none (some "abc")).userList = some [] ∧
    (getUsersHandler initialStore none (some "abc")).returned = some 0 ∧
    (getUsersHandler initialStore none (some "abc")).total = some 2 := by
  have h : jsParseInt "abc" = none := by decide
  have hc := c10_nan_limit initialStore none "abc" h
  exact ⟨h, hc.2.2.1, hc.2.2.2.1, hc.2.2.2.2⟩

/-- C3 counterexample: an entry written at time 0 in a cache with ttl
30000, read at time 30000 (age exactly the ttl, so the claim requires a
miss), is returned as a hit. -/
theorem c3_cache_ttl_counterexample :
    (30000 : Nat) - 0 ≥ (⟨[("users", ⟨7, 0⟩)], 30000⟩ : ApiCache String Nat).ttl ∧
    ((⟨[("users", ⟨7, 0⟩)], 30000⟩ : ApiCache String Nat).get "users" 30000).1 = some 7 := by
  constructor
  · decide
  · rfl

/-- C3 as amended: get returns the stored value exactly when the age
now - writeTimestamp is at most the ttl, and evicts the entry and reports
a miss when the age strictly exceeds the ttl; at an age exactly equal to
the ttl the entry is still a hit. -/
theorem c3_cache_ttl {κ α : Type} [BEq κ] (c : ApiCache κ α) (k : κ) (now : Nat)
    (p : κ × CacheEntry α) (hf : c.entries.find? (fun e => e.1 == k) = some p) :
    (now - p.2.timestamp ≤ c.ttl → c.get k now = (some p.2.value, c)) ∧
    (now - p.2.timestamp > c.ttl →
      c.get k now = (none, { c with entries := c.entries.filter (fun x => x.1 != k) })) := by
  constructor
  · intro h
    simp only [ApiCache.get, hf]
    rw [if_neg (by omega)]
  · intro h
    simp only [ApiCache.get, hf]
    rw [if_pos h]

/-- C3 witness: a hit one millisecond before the boundary and a miss one
millisecond after it. -/
theorem c3_cache_ttl_witness :
    ((⟨[("users", ⟨7, 0⟩)], 30000⟩ : ApiCache String Nat).get "users" 29999).1 = some 7 ∧
    ((⟨[("users", ⟨7, 0⟩)], 30000⟩ : ApiCache String Nat).get "users" 30001).1 = none := by
  have h1 := (c3_cache_ttl (⟨[("users", ⟨7, 0⟩)], 30000⟩ : ApiCache String Nat)
    "users" 29999 ("users", ⟨7, 0⟩) (by decide)).1 (by decide)
  have h2 := (c3_cache_ttl (⟨[("users", ⟨7, 0⟩)], 30000⟩ : ApiCache String Nat)
    "users" 30001 ("users", ⟨7, 0⟩) (by decide)).2 (by decide)
  exact ⟨by rw [h1], by rw [h2]⟩

/-- C6: GET /users/:id answers 400 when the id does not parse as an
integer (so neither 404 nor 500), 404 when it parses but matches no
record, and otherwise 200 with the record. -/
theorem c6_get_user_by_id (s : Store) (idStr : String) :
    (jsParseInt idStr = none → (getUserHandler s idStr).status = 400) ∧
    (∀ n, jsParseInt idStr = some n →
      (s.users.find? (fun u => (u.id : Int) == n) = none →
        (getUserHandler s idStr).status = 404) ∧
      (∀ u, s.users.find? (fun u2 => (u2.id : Int) == n) = some u →
        (getUserHandler s idStr).status = 200 ∧ (getUserHandler s idStr).user = some u)) := by
  refine ⟨fun h => ?_, fun n hn => ⟨fun hf => ?_, fun u hu => ?_⟩⟩ <;>
    simp [getUserHandler, *]

/-- C6 witness: a malformed id, an absent id and a present id on the
seeded store. -/
theorem c6_get_user_by_id_witness :
    (getUserHandler initialStore "abc").status = 400 ∧
    (getUserHandler initialStore "99").status = 404 ∧
    (getUserHandler initialStore "1").status = 200 := by
  refine ⟨(c6_get_user_by_id initialStore "abc").1 (by decide),
    ((c6_get_user_by_id initialStore "99").2 99 (by decide)).1 (by decide),
    (((c6_get_user_by_id initialStore "1").2 1 (by decide)).2
      { id := 1, name := "Admin User", email := "admin@example.com", role := "admin" }
      (by decide)).1⟩

/-- C8: with a truthy role parameter every returned record carries that
role and total counts the records with that role; with no role parameter
no filtering happens (the data is an initial segment of the whole
collection and total counts it all); returned is always the size of the
truncated data; with no limit parameter at most 50 records come back. -/
theorem c8_get_users_list (s : Store) (role : Option String) (limit : Option String) :
    (∀ r, role = some r → r ≠ "" →
      (∀ u ∈ ((getUsersHandler s role limit).userList.getD []), u.role = r) ∧
      (getUsersHandler s role limit).total =
        some ((s.users.filter (fun u => u.role == r)).length)) ∧
    (role = none →
      (∃ k, (getUsersHandler s role limit).userList.getD [] = s.users.take k) ∧
      (getUsersHandler s role limit).total = some s.users.length) ∧
    ((getUsersHandler s role limit).returned =
      some ((getUsersHandler s role limit).userList.getD []).length) ∧
    (limit = none → ((getUsersHandler s role limit).userList.getD []).length ≤ 50) := by
  have hlist : (getUsersHandler s role limit).userList.getD [] =
      jsSliceZero (roleFiltered s role) (limParsed limit) := by
    simp [getUsersHandler]
  have htot : (getUsersHandler s role limit).total = some (roleFiltered s role).length := by
    simp [getUsersHandler]
  have hret : (getUsersHandler s role limit).returned =
      some (jsSliceZero (roleFiltered s role) (limParsed limit)).length := by
    simp [getUsersHandler]
  refine ⟨fun r hr hne => ⟨fun u hu => ?_, ?_⟩, fun hr => ⟨?_, ?_⟩, ?_, fun hl => ?_⟩
  · subst hr
    rw [hlist] at hu
    have hmem := jsSliceZero_subset _ _ u hu
    rw [roleFiltered, if_pos (by simpa using hne)] at hmem
    simpa using (List.mem_filter.mp hmem).2
  · subst hr
    rw [htot, roleFiltered, if_pos (by simpa using hne)]
  · subst hr
    obtain ⟨k, hk⟩ := jsSliceZero_eq_take (roleFiltered s none) (limParsed limit)
    exact ⟨k, by rw [hlist, hk]; rfl⟩
  · subst hr
    rw [htot]
    rfl
  · rw [hret, hlist]
  · subst hl
    rw [hlist]
    simp only [limParsed, jsSliceZero, if_neg (by decide : ¬ ((50 : Int) < 0))]
    simp [List.length_take]

/-- C8 witness: the admin filter and the unfiltered default on the seeded
store. -/
theorem c8_get_users_list_witness :
    (∀ u ∈ ((getUsersHandler initialStore (some "admin") none).userList.getD []),
      u.role = "admin") ∧
    (getUsersHandler initialStore (some "admin") none).total = some 1 ∧
    ((getUsersHandler initialStore none none).userList.getD []).length ≤ 50 := by
  have h1 := (c8_get_users_list initialStore (some "admin") none).1 "admin" rfl (by decide)
  have h2 := ((c8_get_users_list initialStore none none).2.2.2) rfl
  exact ⟨h1.1, h1.2, h2⟩

/-- Helper: the head of a nonempty dropWhile result fails the predicate. -/
theorem dropWhile_head_false {α : Type} {p : α → Bool} {l : List α} {a : α} {r : List α}
    (h : l.dropWhile p = a :: r) : p a = false := by
  induction l with
  | nil => simp at h
  | cons x xs ih =>
    rw [List.dropWhile_cons] at h
    by_cases hx : p x = true
    · exact ih (by simpa [hx] using h)
    · rw [if_neg hx] at h
      injection h with h1 h2
      subst h1
      simpa using hx

/-- Helper: the interior-dot test of the client regex coincides with the
index-quantified domain.tld decomposition test of the spec rendering. -/
theorem contains_interior_dot_iff (dom : List Char) :
    ((dom.drop 1).dropLast.contains '.') = hasDotSplit dom := by
  rw [Bool.eq_iff_iff]
  constructor
  · intro h
    have hm : '.' ∈ (dom.drop 1).dropLast := by simpa using h
    obtain ⟨i, hi, hig⟩ := List.mem_iff_getElem.mp hm
    have hlen : i < (dom.drop 1).length - 1 := by
      simpa [List.length_dropLast] using hi
    have hdlen : (dom.drop 1).length = dom.length - 1 := List.length_drop 1 dom
    rw [List.getElem_dropLast, List.getElem_drop] at hig
    refine (List.any_eq_true).mpr ⟨1 + i, List.mem_range.mpr (by omega), ?_⟩
    have hlt : 1 + i < dom.length := by omega
    have h3 : 1 + i + 1 < dom.length := by omega
    have hgd : dom.getD (1 + i) ' ' = '.' := by
      rw [List.getD_eq_getElem dom ' ' hlt]
      exact hig
    simp only [hgd, beq_self_eq_true, Bool.true_and, Bool.and_eq_true, decide_eq_true_eq]
    exact ⟨by omega, by omega⟩
  · intro h
    obtain ⟨j, hjr, hj⟩ := List.any_eq_true.mp h
    have hjlen := List.mem_range.mp hjr
    simp only [Bool.and_eq_true, decide_eq_true_eq] at hj
    obtain ⟨⟨hdot, hj1⟩, hj2⟩ := hj
    obtain ⟨i, rfl⟩ : ∃ i, j = 1 + i := ⟨j - 1, by omega⟩
    have hdot2 : dom.getD (1 + i) ' ' = '.' := by
      simpa using hdot
    have hdlen : (dom.drop 1).length = dom.length - 1 := List.length_drop 1 dom
    have hi : i < (dom.drop 1).dropLast.length := by
      rw [List.length_dropLast, hdlen]; omega
    have hmem : '.' ∈ (dom.drop 1).dropLast := by
      rw [List.mem_iff_getElem]
      refine ⟨i, hi, ?_⟩
      rw [List.getElem_dropLast, List.getElem_drop,
        ← List.getD_eq_getElem dom ' ' (by omega)]
      exact hdot2
    simpa using hmem

/-- Helper: unfolding of the regex character class. -/
theorem isEmailChar_iff (c : Char) :
    isEmailChar c = true ↔ (c.isWhitespace = false ∧ c ≠ '@') := by
  simp [isEmailChar, Bool.and_eq_true, bne_iff_ne, Bool.not_eq_true']

/-- The client regex accepts exactly the strings the spec-modelled server
pattern accepts. -/
theorem clientEmailOk_eq_specEmailOk (s : String) : clientEmailOk s = specEmailOk s := by
  simp only [clientEmailOk, specEmailOk, String.toList]
  cases hdw : s.data.dropWhile (fun c => c != '@') with
  | nil =>
    simp [hasDotSplit]
  | cons c dom =>
    have hc2 : c = '@' := by
      have := dropWhile_head_false hdw
      simpa using this
    subst hc2
    have hcat : s.data.takeWhile (fun c => c != '@') ++ '@' :: dom = s.data := by
      rw [← hdw]
      exact List.takeWhile_append_dropWhile _ _
    have hlo : ∀ x ∈ s.data.takeWhile (fun c => c != '@'), x ≠ '@' := by
      intro x hx
      have := List.mem_takeWhile_imp hx
      simpa using this
    have hcount : (s.data.takeWhile (fun c => c != '@')).count '@' = 0 :=
      List.count_eq_zero.mpr (fun hmem => hlo '@' hmem rfl)
    show (!(s.data.takeWhile (fun c => c != '@')).isEmpty &&
          (s.data.takeWhile (fun c => c != '@')).all isEmailChar &&
          dom.all isEmailChar && ((dom.drop 1).dropLast.contains '.')) =
        (s.data.all (fun c => !c.isWhitespace) && (s.data.count '@' == 1) &&
          !(s.data.takeWhile (fun c => c != '@')).isEmpty && hasDotSplit dom)
    rw [contains_interior_dot_iff]
    refine Bool.eq_iff_iff.mpr ?_
    have hallspl : s.data.all (fun c => !c.isWhitespace) =
        ((s.data.takeWhile (fun c => c != '@')).all (fun c => !c.isWhitespace) &&
          dom.all (fun c => !c.isWhitespace)) := by
      conv_lhs => rw [← hcat]
      rw [List.all_append, List.all_cons]
      simp
    have hcntspl : s.data.count '@' = dom.count '@' + 1 := by
      conv_lhs => rw [← hcat]
      rw [List.count_append, hcount, List.count_cons]
      simp
    rw [hallspl, hcntspl]
    simp only [Bool.and_eq_true, List.all_eq_true, isEmailChar_iff, Bool.not_eq_true',
      List.isEmpty_eq_false, beq_iff_eq, Bool.not_eq_true]
    constructor
    · rintro ⟨⟨⟨hne, hLall⟩, hdall⟩, hdots⟩
      refine ⟨⟨⟨⟨fun x hx => ?_, fun x hx => ?_⟩, ?_⟩, hne⟩, hdots⟩
      · exact Bool.not_eq_true' _ ▸ ((hLall x hx).1 ▸ rfl)
      · exact Bool.not_eq_true' _ ▸ ((hdall x hx).1 ▸ rfl)
      · have : dom.count '@' = 0 :=
          List.count_eq_zero.mpr (fun hmem => (hdall '@' hmem).2 rfl)
        omega
    · rintro ⟨⟨⟨⟨hLws, hdws⟩, hcnt⟩, hne⟩, hdots⟩
      have hdnot : '@' ∉ dom := by
        intro hmem
        have : dom.count '@' = 0 := by omega
        exact (List.count_eq_zero.mp this) hmem
      refine ⟨⟨⟨hne, fun x hx => ⟨?_, hlo x hx⟩⟩, fun x hx => ⟨?_, fun hxe => hdnot (hxe ▸ hx)⟩⟩, hdots⟩
      · have := hLws x hx
        simpa using this
      · have := hdws x hx
        simpa using this


/-- Helper: truthiness of an optional string field. -/
theorem jsTruthy_iff (x : Option String) : jsTruthy x = true ↔ ∃ v, x = some v ∧ v ≠ "" := by
  cases x <;> simp [jsTruthy]

/-- Helper: the client check passes exactly when each sequential rule
passes. -/
theorem validateUserData_eq_none (b : Body) (m : Bool) :
    validateUserData b m = none ↔
      ((!m && !(jsTruthy b.name)) = false ∧
       (∀ n, b.name = some n → nameLenOk n = true) ∧
       (!m && !(jsTruthy b.email)) = false ∧
       (∀ e, b.email = some e → clientEmailOk e = true) ∧
       (∀ r, b.role = some r → roleOk r = true)) := by
  unfold validateUserData
  obtain ⟨name, email, role⟩ := b
  cases name <;> cases email <;> cases role <;> dsimp only [] <;> (try split_ifs) <;> simp_all

/-- Helper: the POST validator chain produces no error exactly when name
and email are present and valid and a supplied role is valid. -/
theorem postValidationDetails_eq_nil (b : Body) :
    postValidationDetails b = [] ↔
      ((∃ n, b.name = some n ∧ nameLenOk n = true) ∧
       (∃ e, b.email = some e ∧ specEmailOk e = true) ∧
       (∀ r, b.role = some r → roleOk r = true)) := by
  unfold postValidationDetails
  obtain ⟨name, email, role⟩ := b
  cases name <;> cases email <;> cases role <;> dsimp only [] <;> (try split_ifs) <;> simp_all

/-- Helper: the PUT validator chain produces no error exactly when every
supplied field is valid. -/
theorem putValidationDetails_eq_nil (b : Body) :
    putValidationDetails b = [] ↔
      ((∀ n, b.name = some n → nameLenOk n = true) ∧
       (∀ e, b.email = some e → specEmailOk e = true) ∧
       (∀ r, b.role = some r → roleOk r = true)) := by
  unfold putValidationDetails
  obtain ⟨name, email, role⟩ := b
  cases name <;> cases email <;> cases role <;> dsimp only [] <;> (try split_ifs) <;> simp_all

/-- C4: the client-side validation accepts a payload exactly when the
server-side rule set accepts it, in full mode (create) and in partial mode
(update).  The server email rule is the spec-modelled pattern, since
validator.js isEmail is an external dependency. -/
theorem c4_client_mirrors_server (b : Body) :
    (validateUserData b false = none ↔ postValidationDetails b = []) ∧
    (validateUserData b true = none ↔ putValidationDetails b = []) := by
  constructor
  · rw [validateUserData_eq_none, postValidationDetails_eq_nil]
    constructor
    · rintro ⟨hn, hnl, he, hel, hr⟩
      obtain ⟨n, hbn, -⟩ := (jsTruthy_iff b.name).mp (by simpa using hn)
      obtain ⟨e, hbe, -⟩ := (jsTruthy_iff b.email).mp (by simpa using he)
      exact ⟨⟨n, hbn, hnl n hbn⟩,
             ⟨e, hbe, by rw [← clientEmailOk_eq_specEmailOk]; exact hel e hbe⟩, hr⟩
    · rintro ⟨⟨n, hbn, hnok⟩, ⟨e, hbe, heok⟩, hr⟩
      have hnne : n ≠ "" := by
        intro h
        subst h
        exact absurd hnok (by decide)
      have hene : e ≠ "" := by
        intro h
        subst h
        exact absurd heok (by decide)
      refine ⟨?_, ?_, ?_, ?_, hr⟩
      · simp [(jsTruthy_iff b.name).mpr ⟨n, hbn, hnne⟩]
      · intro n2 hn2
        rw [hbn] at hn2
        injection hn2 with h
        subst h
        exact hnok
      · simp [(jsTruthy_iff b.email).mpr ⟨e, hbe, hene⟩]
      · intro e2 he2
        rw [hbe] at he2
        injection he2 with h
        subst h
        rw [clientEmailOk_eq_specEmailOk]
        exact heok
  · rw [validateUserData_eq_none, putValidationDetails_eq_nil]
    constructor
    · rintro ⟨-, hnl, -, hel, hr⟩
      exact ⟨hnl, fun e he => by rw [← clientEmailOk_eq_specEmailOk]; exact hel e he, hr⟩
    · rintro ⟨hnl, hel, hr⟩
      exact ⟨by simp, hnl, by simp,
             fun e he => by rw [clientEmailOk_eq_specEmailOk]; exact hel e he, hr⟩

/-- C2 counterexample: a body whose name is one character and whose email
is missing fails two validators at once, and the 400 response of POST
/users delivers both violations as a two-element details array, not a
single violation. -/
theorem c2_single_violation_counterexample :
    ((postUsersHandler initialStore { name := some "A" } "t").1.status = 400) ∧
    ((postUsersHandler initialStore { name := some "A" } "t").1.details =
      some [{ field := "name", message := "Name must be between 2 and 50 characters" },
            { field := "email", message := "Valid email is required" }]) ∧
    (∀ l, (postUsersHandler initialStore { name := some "A" } "t").1.details = some l →
      l.length = 2) := by
  refine ⟨rfl, rfl, ?_⟩
  intro l hl
  have : l = [{ field := "name", message := "Name must be between 2 and 50 characters" },
              { field := "email", message := "Valid email is required" }] := by
    have h2 : (postUsersHandler initialStore { name := some "A" } "t").1.details =
        some [{ field := "name", message := "Name must be between 2 and 50 characters" },
              { field := "email", message := "Valid email is required" }] := rfl
    rw [h2] at hl
    exact (Option.some.inj hl).symm
  rw [this]
  rfl

/-- C2 as amended: the client-side check returns a single violation, the
first of the client rule violations in the order name, email, role; the
server-side 400 carries the full details array of every failed validator,
which can hold several entries. -/
theorem c2_first_violation_amended :
    (∀ (b : Body) (m : Bool), validateUserData b m = (clientViolationList b m).head?) ∧
    (∀ (s : Store) (b : Body) (now : String), postValidationDetails b ≠ [] →
      (postUsersHandler s b now).1.status = 400 ∧
      (postUsersHandler s b now).1.details = some (postValidationDetails b)) ∧
    (∀ (s : Store) (idStr : String) (b : Body) (now : String), putValidationDetails b ≠ [] →
      (putUsersHandler s idStr b now).1.status = 400 ∧
      (putUsersHandler s idStr b now).1.details = some (putValidationDetails b)) := by
  refine ⟨?_, ?_, ?_⟩
  · intro b m
    unfold validateUserData clientViolationList
    obtain ⟨name, email, role⟩ := b
    cases name <;> cases email <;> cases role <;> dsimp only [] <;> (try split_ifs) <;> simp_all
  · intro s b now h
    unfold postUsersHandler
    rw [if_neg (by simp [List.isEmpty_iff, h])]
    exact ⟨rfl, rfl⟩
  · intro s idStr b now h
    unfold putUsersHandler
    rw [if_neg (by simp [List.isEmpty_iff, h])]
    exact ⟨rfl, rfl⟩

/-- C2 witness: the client returns the single name violation for the
two-rule-violating body, while the server answers 400. -/
theorem c2_first_violation_witness :
    validateUserData { name := some "A" } false =
      some { field := "name", message := "Name must be between 2 and 50 characters" } ∧
    (postUsersHandler initialStore { name := some "A" } "t").1.status = 400 := by
  have h := c2_first_violation_amended
  refine ⟨?_, (h.2.1 initialStore { name := some "A" } "t" (by decide)).1⟩
  rw [h.1 { name := some "A" } false]
  rfl

/-- C1: a POST /users or PUT /users/:id whose (normalized) email equals
the email of a different record already in the store answers 409 and
leaves the users collection and the next-id counter untouched.  For PUT
the target id must exist (else the handler answers 404 before the email
test) and the store is assumed to satisfy the email-uniqueness invariant
that every reachable store has. -/
theorem c1_email_uniqueness :
    (∀ (s : Store) (b : Body) (now : String) (u : User),
      postValidationDetails b = [] → u ∈ s.users → b.email = some u.email →
      (postUsersHandler s b now).1.status = 409 ∧ (postUsersHandler s b now).2 = s) ∧
    (∀ (s : Store) (idStr : String) (uid : Int) (b : Body) (now : String) (u : User),
      putValidationDetails b = [] → jsParseInt idStr = some uid →
      s.users.Pairwise (fun a c => a.email ≠ c.email) →
      (∃ t ∈ s.users, ((t.id : Int) == uid) = true) →
      u ∈ s.users → (u.id : Int) ≠ uid → b.email = some u.email →
      (putUsersHandler s idStr b now).1.status = 409 ∧ (putUsersHandler s idStr b now).2 = s) := by
  constructor
  · intro s b now u hval hu hmail
    have hsome : (s.users.find? (fun x => x.email == u.email)).isSome = true :=
      List.find?_isSome.mpr ⟨u, hu, by simp⟩
    obtain ⟨v, hv⟩ := Option.isSome_iff_exists.mp hsome
    unfold postUsersHandler
    rw [if_pos (by simp [hval])]
    dsimp only []
    rw [hmail]
    dsimp only [Option.getD]
    rw [hv]
    exact ⟨rfl, rfl⟩
  · intro s idStr uid b now u hval hp hpair hext hu huid hmail
    obtain ⟨t, ht, htid⟩ := hext
    have hix : s.users.findIdx (fun x => (x.id : Int) == uid) < s.users.length :=
      List.findIdx_lt_length.mpr ⟨t, ht, htid⟩
    have htgt := @List.findIdx_getElem _ (fun x => (x.id : Int) == uid) s.users hix
    have htgtid : ((s.users[s.users.findIdx (fun x => (x.id : Int) == uid)].id : Int)) = uid := by
      simpa using htgt
    have hmem_t : s.users[s.users.findIdx (fun x => (x.id : Int) == uid)] ∈ s.users :=
      List.getElem_mem hix
    have hne : u ≠ s.users[s.users.findIdx (fun x => (x.id : Int) == uid)] := by
      intro h
      exact huid (by rw [h]; exact htgtid)
    have hemne : u.email ≠ (s.users[s.users.findIdx (fun x => (x.id : Int) == uid)]).email :=
      (List.Pairwise.forall (fun a c h => Ne.symm h) hpair) hu hmem_t hne
    have hespec : specEmailOk u.email = true :=
      ((putValidationDetails_eq_nil b).mp hval).2.1 u.email hmail
    have hene : u.email ≠ "" := by
      intro h
      rw [h] at hespec
      exact absurd hespec (by decide)
    have hsome : (s.users.find? (fun x => x.email == u.email)).isSome = true :=
      List.find?_isSome.mpr ⟨u, hu, by simp⟩
    have hconf : putEmailConflict s (s.users[s.users.findIdx (fun x => (x.id : Int) == uid)]) b = true := by
      unfold putEmailConflict
      rw [hmail]
      simp [hene, hemne, hsome]
    unfold putUsersHandler
    rw [if_pos (by simp [hval])]
    rw [hp]
    dsimp only []
    rw [dif_pos hix]
    rw [if_pos hconf]
    exact ⟨rfl, rfl⟩

/-- C1 witness: duplicating the seeded admin email via POST, and moving
user 2 onto the admin email via PUT. -/
theorem c1_email_uniqueness_witness :
    (postUsersHandler initialStore
      { name := some "Dup User", email := some "admin@example.com" } "t").1.status = 409 ∧
    (postUsersHandler initialStore
      { name := some "Dup User", email := some "admin@example.com" } "t").2 = initialStore ∧
    (putUsersHandler initialStore "2" { email := some "admin@example.com" } "t").1.status = 409 ∧
    (putUsersHandler initialStore "2" { email := some "admin@example.com" } "t").2 = initialStore := by
  have h1 := c1_email_uniqueness.1 initialStore
    { name := some "Dup User", email := some "admin@example.com" } "t"
    { id := 1, name := "Admin User", email := "admin@example.com", role := "admin" }
    (by decide) (by decide) rfl
  have h2 := c1_email_uniqueness.2 initialStore "2" 2
    { email := some "admin@example.com" } "t"
    { id := 1, name := "Admin User", email := "admin@example.com", role := "admin" }
    (by decide) (by decide) (by decide)
    ⟨{ id := 2, name := "Test User", email := "test@example.com", role := "user" },
      by decide, by decide⟩
    (by decide) (by decide) rfl
  exact ⟨h1.1, h1.2, h2.1, h2.2⟩

/-- C9: a successful PUT /users/:id changes only the fields present in
the body on the target record, stamps updatedAt, keeps id and createdAt,
and leaves every other record (and the next-id counter) untouched.  The
getD form states both sides at once: a present field takes the supplied
value, an absent one keeps the stored value. -/
theorem c9_put_update_frame (s : Store) (idStr : String) (b : Body) (now : String) (uid : Int)
    (hval : putValidationDetails b = []) (hp : jsParseInt idStr = some uid)
    (hix : s.users.findIdx (fun x => (x.id : Int) == uid) < s.users.length)
    (hconf : putEmailConflict s (s.users[s.users.findIdx (fun x => (x.id : Int) == uid)]) b = false) :
    ∀ r s2, putUsersHandler s idStr b now = (r, s2) →
      r.status = 200 ∧
      ∃ v, r.user = some v ∧
        v.id = (s.users[s.users.findIdx (fun x => (x.id : Int) == uid)]).id ∧
        v.createdAt = (s.users[s.users.findIdx (fun x => (x.id : Int) == uid)]).createdAt ∧
        v.updatedAt = some now ∧
        v.name = b.name.getD (s.users[s.users.findIdx (fun x => (x.id : Int) == uid)]).name ∧
        v.email = b.email.getD (s.users[s.users.findIdx (fun x => (x.id : Int) == uid)]).email ∧
        v.role = b.role.getD (s.users[s.users.findIdx (fun x => (x.id : Int) == uid)]).role ∧
        s2.nextId = s.nextId ∧
        s2.users.length = s.users.length ∧
        s2.users[s.users.findIdx (fun x => (x.id : Int) == uid)]? = some v ∧
        (∀ j, j ≠ s.users.findIdx (fun x => (x.id : Int) == uid) → s2.users[j]? = s.users[j]?) := by
  intro r s2 h
  unfold putUsersHandler at h
  rw [if_pos (by simp [hval]), hp] at h
  dsimp only [] at h
  rw [dif_pos hix, if_neg (by simp [hconf])] at h
  obtain ⟨h1, h2⟩ := Prod.mk.inj h
  subst h1
  subst h2
  refine ⟨rfl, ⟨_, rfl, rfl, rfl, rfl, rfl, rfl, rfl, rfl, ?_, ?_, ?_⟩⟩
  · exact List.length_set s.users _ _
  · exact List.getElem?_set_self hix
  · intro j hj
    exact List.getElem?_set_ne (Ne.symm hj)

/-- C9 witness: renaming user 2 leaves user 1 in place. -/
theorem c9_put_update_frame_witness :
    (putUsersHandler initialStore "2" { name := some "New Name" } "t2").1.status = 200 ∧
    (putUsersHandler initialStore "2" { name := some "New Name" } "t2").2.users[0]? =
      initialStore.users[0]? := by
  have h := c9_put_update_frame initialStore "2" { name := some "New Name" } "t2" 2
    (by decide) (by decide) (by decide) (by decide)
    (putUsersHandler initialStore "2" { name := some "New Name" } "t2").1
    (putUsersHandler initialStore "2" { name := some "New Name" } "t2").2 rfl
  obtain ⟨hst, v, -, -, -, -, -, -, -, -, -, -, hframe⟩ := h
  exact ⟨hst, hframe 0 (by decide)⟩

/-- The trace invariant: every assigned id is below the counter, the
assigned ids are strictly increasing in assignment order, and every stored
record carries an assigned id. -/
def IdInv (p : Store × List Nat) : Prop :=
  (∀ a ∈ p.2, a < p.1.nextId) ∧ p.2.Chain' (· < ·) ∧ (∀ u ∈ p.1.users, u.id ∈ p.2)

/-- Helper: PUT never touches the next-id counter. -/
theorem putUsersHandler_nextId (s : Store) (idStr : String) (b : Body) (now : String) :
    (putUsersHandler s idStr b now).2.nextId = s.nextId := by
  unfold putUsersHandler
  by_cases hval : (putValidationDetails b).isEmpty
  · rw [if_pos hval]
    cases jsParseInt idStr with
    | none => rfl
    | some uid =>
      dsimp only []
      by_cases hix : s.users.findIdx (fun x => (x.id : Int) == uid) < s.users.length
      · rw [dif_pos hix]
        by_cases hc : putEmailConflict s (s.users[s.users.findIdx (fun x => (x.id : Int) == uid)]) b = true
        · rw [if_pos hc]
        · rw [if_neg hc]
      · rw [dif_neg hix]
  · rw [if_neg hval]

/-- Helper: every record after a PUT has the id of a record before it. -/
theorem putUsersHandler_ids (s : Store) (idStr : String) (b : Body) (now : String) :
    ∀ u ∈ (putUsersHandler s idStr b now).2.users, ∃ w ∈ s.users, u.id = w.id := by
  unfold putUsersHandler
  by_cases hval : (putValidationDetails b).isEmpty
  · rw [if_pos hval]
    cases jsParseInt idStr with
    | none => exact fun u hu => ⟨u, hu, rfl⟩
    | some uid =>
      dsimp only []
      by_cases hix : s.users.findIdx (fun x => (x.id : Int) == uid) < s.users.length
      · rw [dif_pos hix]
        by_cases hc : putEmailConflict s (s.users[s.users.findIdx (fun x => (x.id : Int) == uid)]) b = true
        · rw [if_pos hc]
          exact fun u hu => ⟨u, hu, rfl⟩
        · rw [if_neg hc]
          intro u hu
          rcases List.mem_or_eq_of_mem_set hu with hmem | heq
          · exact ⟨u, hmem, rfl⟩
          · exact ⟨s.users[s.users.findIdx (fun x => (x.id : Int) == uid)],
              List.getElem_mem hix, by rw [heq]⟩
      · rw [dif_neg hix]
        exact fun u hu => ⟨u, hu, rfl⟩
  · rw [if_neg hval]
    exact fun u hu => ⟨u, hu, rfl⟩

/-- Helper: DELETE never touches the next-id counter. -/
theorem deleteUserHandler_nextId (s : Store) (idStr : String) :
    (deleteUserHandler s idStr).2.nextId = s.nextId := by
  unfold deleteUserHandler
  cases jsParseInt idStr with
  | none => rfl
  | some uid =>
    dsimp only []
    by_cases hix : s.users.findIdx (fun x => (x.id : Int) == uid) < s.users.length
    · rw [dif_pos hix]
    · rw [dif_neg hix]

/-- Helper: DELETE only removes records. -/
theorem deleteUserHandler_users_subset (s : Store) (idStr : String) :
    ∀ u ∈ (deleteUserHandler s idStr).2.users, u ∈ s.users := by
  unfold deleteUserHandler
  cases jsParseInt idStr with
  | none => exact fun u hu => hu
  | some uid =>
    dsimp only []
    by_cases hix : s.users.findIdx (fun x => (x.id : Int) == uid) < s.users.length
    · rw [dif_pos hix]
      exact fun u hu => (List.eraseIdx_sublist s.users _).subset hu
    · rw [dif_neg hix]
      exact fun u hu => hu

/-- Helper: a 201 from POST carries a record with id nextId, bumps the
counter, and only appends that record. -/
theorem postUsersHandler_201_user (s : Store) (b : Body) (now : String) (r : Response)
    (s2 : Store) (h : postUsersHandler s b now = (r, s2)) (hst : r.status = 201) :
    (∃ u, r.user = some u ∧ u.id = s.nextId) ∧
      s2.nextId = s.nextId + 1 ∧
      (∀ w ∈ s2.users, w ∈ s.users ∨ w.id = s.nextId) := by
  unfold postUsersHandler at h
  by_cases hval : (postValidationDetails b).isEmpty
  · rw [if_pos hval] at h
    dsimp only [] at h
    cases hfind : s.users.find? (fun x => x.email == b.email.getD "") with
    | some w =>
      rw [hfind] at h
      obtain ⟨h1, h2⟩ := Prod.mk.inj h
      subst h1
      simp at hst
    | none =>
      rw [hfind] at h
      obtain ⟨h1, h2⟩ := Prod.mk.inj h
      subst h1
      subst h2
      refine ⟨⟨_, rfl, rfl⟩, rfl, ?_⟩
      intro w hw
      rcases List.mem_append.mp hw with hmem | hmem
      · exact Or.inl hmem
      · exact Or.inr (by rw [List.mem_singleton.mp hmem])
  · rw [if_neg hval] at h
    obtain ⟨h1, h2⟩ := Prod.mk.inj h
    subst h1
    simp at hst

/-- Helper: a 200 from DELETE carries a record of the prior store. -/
theorem deleteUserHandler_200_user (s : Store) (idStr : String)
    (h : (deleteUserHandler s idStr).1.status = 200) :
    ∃ d, (deleteUserHandler s idStr).1.user = some d ∧ d ∈ s.users := by
  unfold deleteUserHandler at h ⊢
  cases hjs : jsParseInt idStr with
  | none =>
    rw [hjs] at h
    simp at h
  | some uid =>
    rw [hjs] at h
    dsimp only [] at h ⊢
    by_cases hix : s.users.findIdx (fun x => (x.id : Int) == uid) < s.users.length
    · rw [dif_pos hix]
      exact ⟨_, rfl, List.getElem_mem hix⟩
    · rw [dif_neg hix] at h
      simp at h

/-- Helper: an unsuccessful POST leaves the store untouched. -/
theorem postUsersHandler_not201_store (s : Store) (b : Body) (now : String)
    (hst : ¬(postUsersHandler s b now).1.status = 201) :
    (postUsersHandler s b now).2 = s := by
  unfold postUsersHandler at hst ⊢
  by_cases hval : (postValidationDetails b).isEmpty
  · rw [if_pos hval] at hst ⊢
    dsimp only [] at hst ⊢
    cases hfind : s.users.find? (fun x => x.email == b.email.getD "") with
    | some w => rfl
    | none =>
      rw [hfind] at hst
      simp at hst
  · rw [if_neg hval]

/-- Helper: every mutating request preserves the trace invariant. -/
theorem idInv_step (p : Store × List Nat) (op : Op) (h : IdInv p) : IdInv (stepOp p op) := by
  obtain ⟨hlt, hch, hmem⟩ := h
  cases op with
  | create b now =>
    dsimp only [stepOp]
    by_cases hst : (postUsersHandler p.1 b now).1.status = 201
    · rw [if_pos hst]
      obtain ⟨⟨u, hu, huid⟩, hnext, hids⟩ :=
        postUsersHandler_201_user p.1 b now (postUsersHandler p.1 b now).1
          (postUsersHandler p.1 b now).2 rfl hst
      refine ⟨?_, ?_, ?_⟩
      · intro a ha
        rw [hnext]
        rcases List.mem_append.mp ha with hmem2 | hmem2
        · exact Nat.lt_succ_of_lt (hlt a hmem2)
        · rw [List.mem_singleton.mp hmem2]
          exact Nat.lt_succ_self _
      · rw [List.chain'_append]
        refine ⟨hch, List.chain'_singleton _, ?_⟩
        intro x hx y hy
        have hxmem : x ∈ p.2 := List.mem_of_getLast?_eq_some (Option.mem_def.mp hx)
        have h2 := Option.mem_def.mp hy
        simp at h2
        have h3 := hlt x hxmem
        omega
      · intro w hw
        rcases hids w hw with hmem2 | hid
        · exact List.mem_append.mpr (Or.inl (hmem w hmem2))
        · exact List.mem_append.mpr (Or.inr (by rw [hid]; exact List.mem_singleton.mpr rfl))
    · rw [if_neg hst]
      refine ⟨?_, hch, ?_⟩
      · intro a ha
        rw [postUsersHandler_not201_store p.1 b now hst]
        exact hlt a ha
      · intro w hw
        rw [postUsersHandler_not201_store p.1 b now hst] at hw
        exact hmem w hw
  | update idStr b now =>
    dsimp only [stepOp]
    refine ⟨?_, hch, ?_⟩
    · intro a ha
      rw [putUsersHandler_nextId]
      exact hlt a ha
    · intro u hu
      obtain ⟨w, hw, hid⟩ := putUsersHandler_ids p.1 idStr b now u hu
      rw [hid]
      exact hmem w hw
  | remove idStr =>
    dsimp only [stepOp]
    refine ⟨?_, hch, ?_⟩
    · intro a ha
      rw [deleteUserHandler_nextId]
      exact hlt a ha
    · intro u hu
      exact hmem u (deleteUserHandler_users_subset p.1 idStr u hu)

/-- Helper: the invariant is preserved along any trace. -/
theorem idInv_foldl (ops : List Op) (p : Store × List Nat) (h : IdInv p) :
    IdInv (ops.foldl stepOp p) := by
  induction ops generalizing p with
  | nil => exact h
  | cons op rest ih => exact ih (stepOp p op) (idInv_step p op h)

/-- Helper: the invariant holds on every reachable state. -/
theorem idInv_runTrace (ops : List Op) : IdInv (runTrace ops) := by
  apply idInv_foldl
  refine ⟨by decide, List.chain'_cons.mpr ⟨by norm_num, List.chain'_singleton _⟩, by decide⟩

/-- Helper: the assigned-id list only ever grows at the end. -/
theorem assigned_extends (ops : List Op) (p : Store × List Nat) :
    ∃ t, (ops.foldl stepOp p).2 = p.2 ++ t := by
  induction ops generalizing p with
  | nil => exact ⟨[], by simp⟩
  | cons op rest ih =>
    obtain ⟨t1, ht1⟩ := ih (stepOp p op)
    have hstep : ∃ t0, (stepOp p op).2 = p.2 ++ t0 := by
      cases op with
      | create b now =>
        dsimp only [stepOp]
        by_cases hst : (postUsersHandler p.1 b now).1.status = 201
        · rw [if_pos hst]
          exact ⟨[p.1.nextId], rfl⟩
        · rw [if_neg hst]
          exact ⟨[], by simp⟩
      | update idStr b now => exact ⟨[], by simp [stepOp]⟩
      | remove idStr => exact ⟨[], by simp [stepOp]⟩
    obtain ⟨t0, ht0⟩ := hstep
    refine ⟨t0 ++ t1, ?_⟩
    rw [List.foldl_cons, ht1, ht0, List.append_assoc]

/-- C5: along every request trace, the assigned ids are strictly
increasing, a successful create returns an id strictly greater than every
id previously assigned (the seeds and every earlier create, deleted or
not), and an id removed by delete is never assigned to a later record. -/
theorem c5_id_monotonicity :
    (∀ ops : List Op, ((runTrace ops).2).Chain' (· < ·)) ∧
    (∀ (ops : List Op) (b : Body) (now : String) (r : Response) (s2 : Store),
      postUsersHandler (runTrace ops).1 b now = (r, s2) → r.status = 201 →
      ∃ u, r.user = some u ∧ ∀ a ∈ (runTrace ops).2, a < u.id) ∧
    (∀ (ops1 ops2 : List Op) (idStr : String) (b : Body) (now : String) (d u : User)
       (r2 : Response) (s3 : Store),
      (deleteUserHandler (runTrace ops1).1 idStr).1.status = 200 →
      (deleteUserHandler (runTrace ops1).1 idStr).1.user = some d →
      postUsersHandler (runTrace (ops1 ++ Op.remove idStr :: ops2)).1 b now = (r2, s3) →
      r2.status = 201 → r2.user = some u → d.id < u.id) := by
  refine ⟨fun ops => (idInv_runTrace ops).2.1, ?_, ?_⟩
  · intro ops b now r s2 h hst
    obtain ⟨⟨u, hu, huid⟩, -, -⟩ := postUsersHandler_201_user _ b now r s2 h hst
    refine ⟨u, hu, fun a ha => ?_⟩
    rw [huid]
    exact (idInv_runTrace ops).1 a ha
  · intro ops1 ops2 idStr b now d u r2 s3 hds hdu h hst hu
    obtain ⟨d2, hd2, hd2mem⟩ := deleteUserHandler_200_user (runTrace ops1).1 idStr hds
    obtain rfl : d = d2 := by
      rw [hdu] at hd2
      exact Option.some.inj hd2
    have hdid : d.id ∈ (runTrace ops1).2 := (idInv_runTrace ops1).2.2 d hd2mem
    have hrun : runTrace (ops1 ++ Op.remove idStr :: ops2) =
        (Op.remove idStr :: ops2).foldl stepOp (runTrace ops1) := by
      unfold runTrace
      rw [List.foldl_append]
    obtain ⟨t, ht⟩ := assigned_extends (Op.remove idStr :: ops2) (runTrace ops1)
    obtain ⟨⟨u2, hu2, hu2id⟩, -, -⟩ := postUsersHandler_201_user _ b now r2 s3 h hst
    obtain rfl : u = u2 := by
      rw [hu] at hu2
      exact Option.some.inj hu2
    have hmem2 : d.id ∈ (runTrace (ops1 ++ Op.remove idStr :: ops2)).2 := by
      rw [hrun, ht]
      exact List.mem_append.mpr (Or.inl hdid)
    have hfin := (idInv_runTrace (ops1 ++ Op.remove idStr :: ops2)).1 d.id hmem2
    rw [hu2id]
    exact hfin

/-- C5 witness: create id 3, delete it, create again: the new id is 4. -/
theorem c5_id_monotonicity_witness :
    (deleteUserHandler
        (runTrace [Op.create { name := some "Ann Lee", email := some "ann@example.com" } "t"]).1
        "3").1.user =
      some { id := 3, name := "Ann Lee", email := "ann@example.com", role := "user",
             createdAt := some "t" } ∧
    (postUsersHandler
        (runTrace ([Op.create { name := some "Ann Lee", email := some "ann@example.com" } "t"] ++
          Op.remove "3" :: [])).1
        { name := some "Ann Lee", email := some "ann@example.com" } "t2").1.user =
      some { id := 4, name := "Ann Lee", email := "ann@example.com", role := "user",
             createdAt := some "t2" } ∧
    (3 : Nat) < 4 := by
  refine ⟨by decide, by decide, ?_⟩
  exact c5_id_monotonicity.2.2
    [Op.create { name := some "Ann Lee", email := some "ann@example.com" } "t"] [] "3"
    { name := some "Ann Lee", email := some "ann@example.com" } "t2"
    { id := 3, name := "Ann Lee", email := "ann@example.com", role := "user",
      createdAt := some "t" }
    { id := 4, name := "Ann Lee", email := "ann@example.com", role := "user",
      createdAt := some "t2" }
    (postUsersHandler
      (runTrace ([Op.create { name := some "Ann Lee", email := some "ann@example.com" } "t"] ++
        Op.remove "3" :: [])).1
      { name := some "Ann Lee", email := some "ann@example.com" } "t2").1
    (postUsersHandler
      (runTrace ([Op.create { name := some "Ann Lee", email := some "ann@example.com" } "t"] ++
        Op.remove "3" :: [])).1
      { name := some "Ann Lee", email := some "ann@example.com" } "t2").2
    (by decide) (by decide) rfl (by decide) (by decide)

/-- Helper: a fresh entry is a cache hit that leaves the cache unchanged. -/
theorem cacheGet_find_some {κ α : Type} [BEq κ] (c : ApiCache κ α) (k : κ) (now : Nat)
    (p : κ × CacheEntry α) (hf : c.entries.find? (fun e => e.1 == k) = some p)
    (h : now - p.2.timestamp ≤ c.ttl) : c.get k now = (some p.2.value, c) := by
  simp only [ApiCache.get, hf]
  rw [if_neg (by omega)]

/-- Helper: after set, looking the key up finds exactly the new entry. -/
theorem find_filter_append_self {κ α : Type} [BEq κ] [LawfulBEq κ]
    (l : List (κ × CacheEntry α)) (k : κ) (x : CacheEntry α) :
    ((l.filter (fun e => e.1 != k)) ++ [(k, x)]).find? (fun e => e.1 == k) = some (k, x) := by
  rw [List.find?_append]
  have h1 : (l.filter (fun e => e.1 != k)).find? (fun e => e.1 == k) = none := by
    rw [List.find?_eq_none]
    intro e he
    have h2 := (List.mem_filter.mp he).2
    simp only [bne_iff_ne, ne_eq] at h2
    simp [h2]
  rw [h1]
  simp [List.find?]

/-- Helper: with an empty cache every read goes to the network. -/
theorem cachedGetUsers_network_of_empty (st : ClientState) (hc : st.cache.entries = [])
    (f : Filters) (now : Nat) : (cachedGetUsers st f now).2.2 = true := by
  unfold cachedGetUsers
  have hg : st.cache.get f now = (none, st.cache) := by
    simp [ApiCache.get, hc]
  rw [hg]

/-- C7: a second getUsers with the same filter set within the ttl of the
cached entry returns the cached value with no network request; and every
successful createUser, updateUser or deleteUser empties the whole cache,
after which any getUsers issues a fresh network request. -/
theorem c7_cache_read_and_invalidation :
    (∀ (st : ClientState) (f : Filters) (now1 now2 : Nat) (r1 : Response)
       (st1 : ClientState) (n1 : Bool) (v : Response) (ts : Nat),
      cachedGetUsers st f now1 = (r1, st1, n1) →
      cacheLookup st1 f = some ⟨v, ts⟩ →
      now2 - ts ≤ st1.cache.ttl →
      cachedGetUsers st1 f now2 = (v, st1, false) ∧ r1 = v) ∧
    (∀ (st : ClientState) (b : Body) (nowIso : String) (r : Response)
       (st2 : ClientState) (n : Bool),
      cachedCreateUser st b nowIso = (Except.ok r, st2, n) →
      st2.cache.entries = [] ∧ ∀ (f : Filters) (now3 : Nat),
        (cachedGetUsers st2 f now3).2.2 = true) ∧
    (∀ (st : ClientState) (idStr : String) (b : Body) (nowIso : String) (r : Response)
       (st2 : ClientState) (n : Bool),
      cachedUpdateUser st idStr b nowIso = (Except.ok r, st2, n) →
      st2.cache.entries = [] ∧ ∀ (f : Filters) (now3 : Nat),
        (cachedGetUsers st2 f now3).2.2 = true) ∧
    (∀ (st : ClientState) (idStr : String) (r : Response)
       (st2 : ClientState) (n : Bool),
      cachedDeleteUser st idStr = (Except.ok r, st2, n) →
      st2.cache.entries = [] ∧ ∀ (f : Filters) (now3 : Nat),
        (cachedGetUsers st2 f now3).2.2 = true) := by
  refine ⟨?_, ?_, ?_, ?_⟩
  · intro st f now1 now2 r1 st1 n1 v ts h1 hl httl
    obtain ⟨p, hp, hp2⟩ := Option.map_eq_some'.mp hl
    have hsecond : st1.cache.get f now2 = (some v, st1.cache) := by
      have hts : now2 - p.2.timestamp ≤ st1.cache.ttl := by
        rw [hp2]
        exact httl
      have hg := cacheGet_find_some st1.cache f now2 p hp hts
      rw [hp2] at hg
      exact hg
    have hcall2 : cachedGetUsers st1 f now2 = (v, st1, false) := by
      unfold cachedGetUsers
      rw [hsecond]
    refine ⟨hcall2, ?_⟩
    -- analyze the first call
    unfold cachedGetUsers at h1
    cases hg1 : st.cache.get f now1 with
    | mk o c0 =>
      rw [hg1] at h1
      cases o with
      | some v0 =>
        dsimp only [] at h1
        obtain ⟨h1a, h1b⟩ := Prod.mk.inj h1
        obtain ⟨h1c, -⟩ := Prod.mk.inj h1b
        -- get hit: c0 = st.cache and the found entry has value v0
        unfold ApiCache.get at hg1
        cases hf1 : st.cache.entries.find? (fun e => e.1 == f) with
        | none =>
          rw [hf1] at hg1
          exact absurd (Prod.mk.inj hg1).1 (by simp)
        | some e =>
          rw [hf1] at hg1
          dsimp only [] at hg1
          by_cases hage : now1 - e.2.timestamp > st.cache.ttl
          · rw [if_pos hage] at hg1
            exact absurd (Prod.mk.inj hg1).1 (by simp)
          · rw [if_neg hage] at hg1
            obtain ⟨hv0, hc0⟩ := Prod.mk.inj hg1
            -- st1 = { st with cache := c0 } and c0 = st.cache
            have hst1 : st1.cache = st.cache := by
              rw [← h1c, ← hc0]
            rw [hst1] at hp
            rw [hf1] at hp
            obtain rfl : e = p := Option.some.inj hp
            rw [← h1a]
            rw [← Option.some.inj hv0]
            rw [hp2]
      | none =>
        dsimp only [] at h1
        obtain ⟨h1a, h1b⟩ := Prod.mk.inj h1
        obtain ⟨h1c, -⟩ := Prod.mk.inj h1b
        -- miss: st1.cache = c0.set f resp now1, and the get left c0 with no f entry
        unfold ApiCache.get at hg1
        cases hf1 : st.cache.entries.find? (fun e => e.1 == f) with
        | none =>
          rw [hf1] at hg1
          obtain ⟨-, hc0⟩ := Prod.mk.inj hg1
          have hset : st1.cache.entries =
              (c0.entries.filter (fun e => e.1 != f)) ++ [(f, ⟨netGetUsers st f, now1⟩)] := by
            rw [← h1c]
            rfl
          have hpp := hp
          rw [hset, find_filter_append_self] at hpp
          obtain rfl : p = (f, ⟨netGetUsers st f, now1⟩) := (Option.some.inj hpp).symm
          have hv : v = netGetUsers st f := (congrArg CacheEntry.value hp2).symm
          rw [← h1a, hv]
        | some e =>
          rw [hf1] at hg1
          dsimp only [] at hg1
          by_cases hage : now1 - e.2.timestamp > st.cache.ttl
          · rw [if_pos hage] at hg1
            obtain ⟨-, hc0⟩ := Prod.mk.inj hg1
            have hset : st1.cache.entries =
                (c0.entries.filter (fun e => e.1 != f)) ++ [(f, ⟨netGetUsers st f, now1⟩)] := by
              rw [← h1c]
              rfl
            have hpp := hp
            rw [hset, find_filter_append_self] at hpp
            obtain rfl : p = (f, ⟨netGetUsers st f, now1⟩) := (Option.some.inj hpp).symm
            have hv : v = netGetUsers st f := (congrArg CacheEntry.value hp2).symm
            rw [← h1a, hv]
          · rw [if_neg hage] at hg1
            exact absurd (Prod.mk.inj hg1).1 (by simp)
  · intro st b nowIso r st2 n h
    unfold cachedCreateUser at h
    cases hv : validateUserData b false with
    | some v =>
      rw [hv] at h
      exact absurd (Prod.mk.inj h).1 (by simp)
    | none =>
      rw [hv] at h
      dsimp only [] at h
      by_cases hok : respOk (postUsersHandler st.store b nowIso).1 = true
      · rw [if_pos hok] at h
        obtain ⟨-, h2⟩ := Prod.mk.inj h
        obtain ⟨h3, -⟩ := Prod.mk.inj h2
        constructor
        · rw [← h3]
          rfl
        · intro f now3
          exact cachedGetUsers_network_of_empty _ (by rw [← h3]; rfl) f now3
      · rw [if_neg hok] at h
        exact absurd (Prod.mk.inj h).1 (by simp)
  · intro st idStr b nowIso r st2 n h
    unfold cachedUpdateUser at h
    by_cases hid : (idStr == "" || (jsParseInt idStr).isNone) = true
    · rw [if_pos hid] at h
      exact absurd (Prod.mk.inj h).1 (by simp)
    · rw [if_neg hid] at h
      cases hv : validateUserData b true with
      | some v =>
        rw [hv] at h
        exact absurd (Prod.mk.inj h).1 (by simp)
      | none =>
        rw [hv] at h
        dsimp only [] at h
        by_cases hok : respOk (putUsersHandler st.store idStr b nowIso).1 = true
        · rw [if_pos hok] at h
          obtain ⟨-, h2⟩ := Prod.mk.inj h
          obtain ⟨h3, -⟩ := Prod.mk.inj h2
          constructor
          · rw [← h3]
            rfl
          · intro f now3
            exact cachedGetUsers_network_of_empty _ (by rw [← h3]; rfl) f now3
        · rw [if_neg hok] at h
          exact absurd (Prod.mk.inj h).1 (by simp)
  · intro st idStr r st2 n h
    unfold cachedDeleteUser at h
    by_cases hid : (idStr == "" || (jsParseInt idStr).isNone) = true
    · rw [if_pos hid] at h
      exact absurd (Prod.mk.inj h).1 (by simp)
    · rw [if_neg hid] at h
      dsimp only [] at h
      by_cases hok : respOk (deleteUserHandler st.store idStr).1 = true
      · rw [if_pos hok] at h
        obtain ⟨-, h2⟩ := Prod.mk.inj h
        obtain ⟨h3, -⟩ := Prod.mk.inj h2
        constructor
        · rw [← h3]
          rfl
        · intro f now3
          exact cachedGetUsers_network_of_empty _ (by rw [← h3]; rfl) f now3
      · rw [if_neg hok] at h
        exact absurd (Prod.mk.inj h).1 (by simp)

/-- C7 witness: a read at 100, a cache hit at 20100 returning the same
envelope with no network call, then a create that empties the cache and a
read at 20200 that goes back to the network. -/
theorem c7_cache_read_and_invalidation_witness :
    (cachedGetUsers { store := initialStore, cache := { entries := [] } } {} 100).2.2 = true ∧
    cachedGetUsers
        ((cachedGetUsers { store := initialStore, cache := { entries := [] } } {} 100).2.1)
        {} 20100 =
      (netGetUsers { store := initialStore, cache := { entries := [] } } {},
       (cachedGetUsers { store := initialStore, cache := { entries := [] } } {} 100).2.1,
       false) ∧
    ((cachedCreateUser
        ((cachedGetUsers { store := initialStore, cache := { entries := [] } } {} 100).2.1)
        { name := some "Ann Lee", email := some "ann@example.com" } "t").2.1).cache.entries = [] ∧
    (cachedGetUsers
        ((cachedCreateUser
          ((cachedGetUsers { store := initialStore, cache := { entries := [] } } {} 100).2.1)
          { name := some "Ann Lee", email := some "ann@example.com" } "t").2.1)
        {} 20200).2.2 = true := by
  have hpair := c7_cache_read_and_invalidation.1 { store := initialStore, cache := { entries := [] } } {} 100 20100
    (cachedGetUsers { store := initialStore, cache := { entries := [] } } {} 100).1
    (cachedGetUsers { store := initialStore, cache := { entries := [] } } {} 100).2.1
    (cachedGetUsers { store := initialStore, cache := { entries := [] } } {} 100).2.2
    (netGetUsers { store := initialStore, cache := { entries := [] } } {}) 100
    rfl (by decide) (by decide)
  have hcreate := c7_cache_read_and_invalidation.2.1
    ((cachedGetUsers { store := initialStore, cache := { entries := [] } } {} 100).2.1)
    { name := some "Ann Lee", email := some "ann@example.com" } "t"
    { status := 201, success := true,
      user := some { id := 3, name := "Ann Lee", email := "ann@example.com", role := "user",
                     createdAt := some "t" },
      message := some "User created successfully" }
    ((cachedCreateUser
      ((cachedGetUsers { store := initialStore, cache := { entries := [] } } {} 100).2.1)
      { name := some "Ann Lee", email := some "ann@example.com" } "t").2.1)
    ((cachedCreateUser
      ((cachedGetUsers { store := initialStore, cache := { entries := [] } } {} 100).2.1)
      { name := some "Ann Lee", email := some "ann@example.com" } "t").2.2)
    rfl
  exact ⟨by decide, hpair.1, hcreate.1, hcreate.2 {} 20200⟩

end MiniAgents
